import Mathlib

/-!
Verification development for the pipelines plugin runtime (src/main.py).

The embedding models the request-dispatch engine (streaming and
non-streaming chat completion), the valve (configuration) subsystem,
the plugin loader, and the legacy valves.json migration, as executable
Lean definitions translated from src/main.py.
-/

/-- JSON-like values: the shapes that Python dict / list / str / int /
bool / None data takes in this codebase. -/
inductive JVal where
  | jnull : JVal
  | jbool : Bool → JVal
  | jnum : Int → JVal
  | jstr : String → JVal
  | jarr : List JVal → JVal
  | jobj : List (String × JVal) → JVal

/-- Double-quote character. -/
def dQuote : String := String.singleton (Char.ofNat 34)

/-- Single-quote character. -/
def sQuote : String := String.singleton (Char.ofNat 39)

/-- Backslash character. -/
def bSlash : String := String.singleton (Char.ofNat 92)

/-- JSON string escaping for one character, as json.dumps performs it for
the quote and backslash characters (the only ones arising here). -/
def jsonEscapeChar (c : Char) : String :=
  if c = Char.ofNat 34 then bSlash ++ dQuote
  else if c = Char.ofNat 92 then bSlash ++ bSlash
  else String.singleton c

/-- A JSON string literal, as produced by json.dumps. -/
def jsonQuote (s : String) : String :=
  dQuote ++ String.join (s.data.map jsonEscapeChar) ++ dQuote

/-- Comma-space separated concatenation, the default json.dumps item
separator. -/
def joinComma : List String → String
  | [] => ""
  | [x] => x
  | x :: y :: rest => x ++ ", " ++ joinComma (y :: rest)

mutual

/-- Serialization of a value exactly as Python json.dumps renders it with
default separators. -/
def jsonDumps : JVal → String
  | .jnull => "null"
  | .jbool true => "true"
  | .jbool false => "false"
  | .jnum n => toString n
  | .jstr s => jsonQuote s
  | .jarr xs => "[" ++ joinComma (jsonDumpsList xs) ++ "]"
  | .jobj fs => "\x7b" ++ joinComma (jsonDumpsObj fs) ++ "\x7d"

/-- Serialization of the elements of a JSON array. -/
def jsonDumpsList : List JVal → List String
  | [] => []
  | x :: xs => jsonDumps x :: jsonDumpsList xs

/-- Serialization of the fields of a JSON object. -/
def jsonDumpsObj : List (String × JVal) → List String
  | [] => []
  | f :: fs => (jsonQuote f.fst ++ ": " ++ jsonDumps f.snd) :: jsonDumpsObj fs

end

/-- Python repr of a string without special characters, single quoted with
quote and backslash escapes (the cases arising in this development). -/
def pyReprStr (s : String) : String :=
  sQuote ++ String.join (s.data.map fun c =>
    if c = Char.ofNat 39 then bSlash ++ sQuote
    else if c = Char.ofNat 92 then bSlash ++ bSlash
    else String.singleton c) ++ sQuote

mutual

/-- Python str()/repr() rendering of a JSON-like value, as an f-string
renders a dict: single-quoted strings, True/False/None keywords. -/
def pyRepr : JVal → String
  | .jnull => "None"
  | .jbool true => "True"
  | .jbool false => "False"
  | .jnum n => toString n
  | .jstr s => pyReprStr s
  | .jarr xs => "[" ++ joinComma (pyReprList xs) ++ "]"
  | .jobj fs => "\x7b" ++ joinComma (pyReprObj fs) ++ "\x7d"

/-- Rendering of the elements of a Python list. -/
def pyReprList : List JVal → List String
  | [] => []
  | x :: xs => pyRepr x :: pyReprList xs

/-- Rendering of the fields of a Python dict. -/
def pyReprObj : List (String × JVal) → List String
  | [] => []
  | f :: fs => (pyReprStr f.fst ++ ": " ++ pyRepr f.snd) :: pyReprObj fs

end

/-- One item yielded by a pipeline entry point's lazy output sequence: a
text fragment, a Python dict, or a pydantic BaseModel instance. A
BaseModel is carried together with its model_dump_json serialization and
its str() rendering, both outputs of the pydantic library. -/
inductive Item where
  | str : String → Item
  | dict : List (String × JVal) → Item
  | model : String → String → Item

/-- Python f-string conversion of one item, as used by the non-streaming
accumulator in generate_openai_chat_completion. -/
def pyStr : Item → String
  | .str s => s
  | .dict d => pyRepr (.jobj d)
  | .model _ reprStr => reprStr

/-- The value returned by a pipeline entry point pipe(): a plain string, a
generator, an iterator that is not a generator, a dict, or a pydantic
model (carried as its model_dump fields). The two lazy shapes are kept
distinct because main.py tests isinstance Iterator for the streaming loop
but isinstance Generator for the stream-termination block and for the
non-streaming accumulator. -/
inductive PipeResult where
  | str : String → PipeResult
  | gen : List Item → PipeResult
  | iter : List Item → PipeResult
  | dict : List (String × JVal) → PipeResult
  | model : List (String × JVal) → PipeResult

/-- Whether a pipe() result is a lazy sequence (generator or iterator). -/
def isLazy : PipeResult → Bool
  | .gen _ => true
  | .iter _ => true
  | _ => false

/-- Modelled from the spec: stream_message_template lives in
utils/pipelines/main.py, which is not among the sources; per the Stream
Adapter section of the spec, a text fragment or delta value is wrapped
into a completion-chunk object carrying it as an incremental delta. The
synthetic identifier suffix and creation time are parameters. -/
def stream_message_template (model uuid : String) (created : Int) (content : JVal) : JVal :=
  .jobj [ ("id", .jstr (model ++ "-" ++ uuid)),
          ("object", .jstr "chat.completion.chunk"),
          ("created", .jnum created),
          ("model", .jstr model),
          ("choices", .jarr [ .jobj [ ("index", .jnum 0),
                                      ("delta", .jobj [("content", content)]),
                                      ("logprobs", .jnull),
                                      ("finish_reason", .jnull) ] ]) ]

/-- The synthetic terminal chunk built inline in stream_content
(src/main.py lines 486 to 499): empty delta and finish reason stop. -/
def finish_message (model uuid : String) (created : Int) : JVal :=
  .jobj [ ("id", .jstr (model ++ "-" ++ uuid)),
          ("object", .jstr "chat.completion.chunk"),
          ("created", .jnum created),
          ("model", .jstr model),
          ("choices", .jarr [ .jobj [ ("index", .jnum 0),
                                      ("delta", .jobj []),
                                      ("logprobs", .jnull),
                                      ("finish_reason", .jstr "stop") ] ]) ]

/-- The body of the streaming for-loop in stream_content (src/main.py
lines 464 to 483): a BaseModel is serialized and prefixed with data:, a
dict is serialized and prefixed with data:, and a string is forwarded
verbatim when it already starts with data:, otherwise wrapped via
stream_message_template; every frame gets a trailing blank line. -/
def frameItem (model uuid : String) (created : Int) : Item → String
  | .str s =>
      if s.startsWith "data:" then s ++ "\n\n"
      else "data: " ++ jsonDumps (stream_message_template model uuid created (.jstr s)) ++ "\n\n"
  | .dict d => "data: " ++ jsonDumps (.jobj d) ++ "\n\n"
  | .model dumpJson _ => "data: " ++ dumpJson ++ "\n\n"

/-- The full emission sequence of stream_content (src/main.py lines 448 to
502) for one streaming dispatch: a string result is wrapped as a single
chunk; an Iterator result (generators included) has each item framed by
the loop; then, only for a string or a Generator result, the synthetic
terminal chunk and the data: [DONE] sentinel are appended. The wrap and
terminal identifier suffixes and times are parameters. -/
def stream_content (model : String) (res : PipeResult) (uuidC : String) (createdC : Int)
    (uuidF : String) (createdF : Int) : List String :=
  (match res with
    | .str s => ["data: " ++ jsonDumps (stream_message_template model uuidC createdC (.jstr s)) ++ "\n\n"]
    | _ => []) ++
  (match res with
    | .gen items => items.map (frameItem model uuidC createdC)
    | .iter items => items.map (frameItem model uuidC createdC)
    | _ => []) ++
  (match res with
    | .str _ => ["data: " ++ jsonDumps (finish_message model uuidF createdF) ++ "\n\n", "data: [DONE]"]
    | .gen _ => ["data: " ++ jsonDumps (finish_message model uuidF createdF) ++ "\n\n", "data: [DONE]"]
    | _ => [])

/-- The message accumulator of the non-streaming branch (src/main.py lines
521 to 528): a string result is taken whole; a Generator result has every
item folded into the accumulator through f-string conversion; any other
shape leaves the accumulator empty. -/
def nonstream_message : PipeResult → String
  | .str s => s
  | .gen items => items.foldl (fun acc it => acc ++ pyStr it) ""
  | _ => ""

/-- The non-streaming response of generate_openai_chat_completion
(src/main.py lines 505 to 547): a dict result is returned as is, a
BaseModel result is returned as its model_dump, and anything else is
wrapped in a chat.completion object around the accumulated message. -/
def generate_openai_chat_completion (model : String) (res : PipeResult) (uuid : String)
    (created : Int) : JVal :=
  match res with
  | .dict d => .jobj d
  | .model d => .jobj d
  | _ =>
    .jobj [ ("id", .jstr (model ++ "-" ++ uuid)),
            ("object", .jstr "chat.completion"),
            ("created", .jnum created),
            ("model", .jstr model),
            ("choices", .jarr [ .jobj [ ("index", .jnum 0),
                                        ("message", .jobj [ ("role", .jstr "assistant"),
                                                            ("content", .jstr (nonstream_message res)) ]),
                                        ("logprobs", .jnull),
                                        ("finish_reason", .jstr "stop") ] ]) ]

/-- First-match lookup in an association list, as Python dict access on
records whose keys are unique. -/
def jlookup : List (String × JVal) → String → Option JVal
  | [], _ => none
  | f :: fs, key => if f.fst = key then some f.snd else jlookup fs key

/-- Field access on a JSON object value. -/
def jget (j : JVal) (key : String) : Option JVal :=
  match j with
  | .jobj fs => jlookup fs key
  | _ => none

/-- The delta object of a single-choice completion chunk. -/
def chunkDelta (j : JVal) : Option JVal :=
  match jget j "choices" with
  | some (.jarr (ch :: _)) => jget ch "delta"
  | _ => none

/-- The finish reason of a single-choice completion chunk or completion. -/
def chunkFinishReason (j : JVal) : Option JVal :=
  match jget j "choices" with
  | some (.jarr (ch :: _)) => jget ch "finish_reason"
  | _ => none

/-- The message content of a single-choice chat.completion object. -/
def completionContent (j : JVal) : Option JVal :=
  match jget j "choices" with
  | some (.jarr (ch :: _)) =>
    match jget ch "message" with
    | some m => jget m "content"
    | none => none
  | _ => none

/-- Concatenation of exactly the text-kind items of a sequence, in
emission order: what the spec asserts the non-streaming message to be. -/
def textConcat (items : List Item) : String :=
  items.foldl (fun acc it =>
    match it with
    | .str s => acc ++ s
    | _ => acc) ""

/-- Decomposition of the streaming emission for a generator result with a
distinguished item: the frames preserve emission order, the distinguished
item is framed in place, and the terminal chunk and sentinel close the
stream. -/
theorem stream_content_gen_decomp (model uuidC uuidF : String) (createdC createdF : Int)
    (pre post : List Item) (it : Item) :
    stream_content model (.gen (pre ++ it :: post)) uuidC createdC uuidF createdF
      = pre.map (frameItem model uuidC createdC)
        ++ frameItem model uuidC createdC it
          :: (post.map (frameItem model uuidC createdC)
              ++ ["data: " ++ jsonDumps (finish_message model uuidF createdF) ++ "\n\n",
                  "data: [DONE]"]) := by
  simp [stream_content]

/-- C10: for a streaming dispatch over a generator, a plain-string item is
classified solely by the data: prefix: if it begins with data: it is
forwarded verbatim with only a trailing blank line appended, and otherwise
it is wrapped into a completion chunk carrying it as a delta. -/
theorem C10_string_items_classified_by_data_colon (model uuidC uuidF : String)
    (createdC createdF : Int) (pre post : List Item) (s : String) :
    stream_content model (.gen (pre ++ Item.str s :: post)) uuidC createdC uuidF createdF
      = pre.map (frameItem model uuidC createdC)
        ++ (if s.startsWith "data:" then s ++ "\n\n"
            else "data: " ++ jsonDumps (stream_message_template model uuidC createdC (.jstr s)) ++ "\n\n")
          :: (post.map (frameItem model uuidC createdC)
              ++ ["data: " ++ jsonDumps (finish_message model uuidF createdF) ++ "\n\n",
                  "data: [DONE]"]) := by
  rw [stream_content_gen_decomp]
  rfl

/-- C9 counterexample: a dict item that does not match the wire event
schema is forwarded in raw form as its own data: frame, not wrapped into a
completion-chunk object carrying it as a delta value. -/
theorem C9_counterexample :
    (stream_content "m" (PipeResult.gen [Item.dict [("foo", JVal.jnum 1)]]) "u" 0 "v" 0).head?
        = some ("data: \x7b\"foo\": 1\x7d\n\n")
    ∧ ("data: \x7b\"foo\": 1\x7d\n\n")
        ≠ "data: " ++ jsonDumps (stream_message_template "m" "u" 0
            (JVal.jobj [("foo", JVal.jnum 1)])) ++ "\n\n" := by
  exact ⟨by decide, by decide⟩

/-- C9 amended: for a streaming dispatch over a generator, every dict item
is serialized to JSON, prefixed with data:, and forwarded as its own SSE
frame in emission order, whether or not it matches the wire event
schema; it is never re-wrapped into a completion-chunk object. -/
theorem C9_amended_dict_items_forwarded_raw (model uuidC uuidF : String)
    (createdC createdF : Int) (pre post : List Item) (d : List (String × JVal)) :
    stream_content model (.gen (pre ++ Item.dict d :: post)) uuidC createdC uuidF createdF
      = pre.map (frameItem model uuidC createdC)
        ++ ("data: " ++ jsonDumps (JVal.jobj d) ++ "\n\n")
          :: (post.map (frameItem model uuidC createdC)
              ++ ["data: " ++ jsonDumps (finish_message model uuidF createdF) ++ "\n\n",
                  "data: [DONE]"]) := by
  rw [stream_content_gen_decomp]
  rfl

/-- C1 counterexample: an iterator that is not a generator is a lazy
sequence, yet after its items are exhausted the stream ends without the
synthetic terminal chunk and without the data: [DONE] sentinel. -/
theorem C1_counterexample :
    isLazy (PipeResult.iter [Item.str "hi"]) = true
    ∧ (stream_content "m" (PipeResult.iter [Item.str "hi"]) "u" 0 "v" 0).getLast?
        ≠ some "data: [DONE]" := by
  exact ⟨rfl, by decide⟩

/-- C1 amended: for every streaming dispatch whose entry point returns a
string or a generator, the emission ends with exactly the synthetic
terminal chunk, whose delta is empty and whose finish reason is stop,
followed by the data: [DONE] sentinel, and nothing follows them. -/
theorem C1_amended_terminal_chunk_for_str_and_gen (model uuidC uuidF : String)
    (createdC createdF : Int) (res : PipeResult)
    (h : (∃ s, res = PipeResult.str s) ∨ (∃ items, res = PipeResult.gen items)) :
    (∃ pre, stream_content model res uuidC createdC uuidF createdF
        = pre ++ ["data: " ++ jsonDumps (finish_message model uuidF createdF) ++ "\n\n",
                  "data: [DONE]"])
    ∧ chunkDelta (finish_message model uuidF createdF) = some (JVal.jobj [])
    ∧ chunkFinishReason (finish_message model uuidF createdF) = some (JVal.jstr "stop") := by
  rcases h with ⟨s, rfl⟩ | ⟨items, rfl⟩
  · exact ⟨⟨["data: " ++ jsonDumps (stream_message_template model uuidC createdC (.jstr s)) ++ "\n\n"],
      by simp [stream_content]⟩, rfl, rfl⟩
  · exact ⟨⟨items.map (frameItem model uuidC createdC), by simp [stream_content]⟩, rfl, rfl⟩

/-- C1 amended witness: the terminal chunk and sentinel close the stream
for a concrete string-valued dispatch. -/
theorem C1_amended_terminal_chunk_witness :
    (∃ pre, stream_content "m" (PipeResult.str "x") "u" 0 "v" 0
        = pre ++ ["data: " ++ jsonDumps (finish_message "m" "v" 0) ++ "\n\n", "data: [DONE]"])
    ∧ chunkDelta (finish_message "m" "v" 0) = some (JVal.jobj [])
    ∧ chunkFinishReason (finish_message "m" "v" 0) = some (JVal.jstr "stop") :=
  C1_amended_terminal_chunk_for_str_and_gen "m" "u" "v" 0 0 (PipeResult.str "x")
    (Or.inl ⟨"x", rfl⟩)

/-- C2 counterexample: in a non-streaming dispatch over a generator that
yields text A, a structured event, then text B, the final message content
is the f-string concatenation including the rendering of the dict, not the
concatenation of exactly the text-kind items. -/
theorem C2_counterexample :
    completionContent (generate_openai_chat_completion "m"
        (PipeResult.gen [Item.str "A", Item.dict [("event", JVal.jstr "x")], Item.str "B"]) "u" 0)
      = some (JVal.jstr ("A\x7b" ++ sQuote ++ "event" ++ sQuote ++ ": "
          ++ sQuote ++ "x" ++ sQuote ++ "\x7dB"))
    ∧ ("A\x7b" ++ sQuote ++ "event" ++ sQuote ++ ": " ++ sQuote ++ "x" ++ sQuote ++ "\x7dB")
        ≠ textConcat [Item.str "A", Item.dict [("event", JVal.jstr "x")], Item.str "B"] := by
  exact ⟨rfl, by decide⟩

/-- C2 amended: for a non-streaming dispatch, a generator result yields as
message content the concatenation, in emission order, of the Python
string renderings of all items (structured items appear through their
rendering rather than being dropped), a string result yields itself, a
non-generator iterator yields the empty content, and the result is
wrapped in a completion object with the synthetic identifier, the
requested model identifier, and finish reason stop. -/
theorem C2_amended_nonstream_content (model uuid : String) (created : Int)
    (items : List Item) (s : String) :
    completionContent (generate_openai_chat_completion model (PipeResult.gen items) uuid created)
        = some (JVal.jstr (items.foldl (fun acc it => acc ++ pyStr it) ""))
    ∧ completionContent (generate_openai_chat_completion model (PipeResult.str s) uuid created)
        = some (JVal.jstr s)
    ∧ completionContent (generate_openai_chat_completion model (PipeResult.iter items) uuid created)
        = some (JVal.jstr "")
    ∧ chunkFinishReason (generate_openai_chat_completion model (PipeResult.gen items) uuid created)
        = some (JVal.jstr "stop")
    ∧ jget (generate_openai_chat_completion model (PipeResult.gen items) uuid created) "model"
        = some (JVal.jstr model)
    ∧ jget (generate_openai_chat_completion model (PipeResult.gen items) uuid created) "id"
        = some (JVal.jstr (model ++ "-" ++ uuid)) := by
  exact ⟨rfl, rfl, rfl, rfl, rfl, rfl⟩

/-- The type of one valve field in a pydantic Valves class. -/
inductive FieldTy where
  | tInt : FieldTy
  | tStr : FieldTy
  | tBool : FieldTy
deriving DecidableEq, Repr

/-- Whether a value is acceptable for a field type under pydantic
validation. -/
def typeOk : FieldTy → JVal → Bool
  | .tInt, .jnum _ => true
  | .tStr, .jstr _ => true
  | .tBool, .jbool _ => true
  | _, _ => false

/-- Declaration of one field of a Valves class: its type and its optional
compiled-in default. -/
structure FieldSpec where
  ty : FieldTy
  default : Option JVal

/-- A pydantic model class for a Valves record: named, typed fields with
optional compiled-in defaults, in declaration order. The repository's
Valves classes are plain BaseModel subclasses, so unknown keyword
arguments are ignored and defaults are not re-validated, which this
construction mirrors. -/
structure ValvesModel where
  fields : List (String × FieldSpec)

/-- Construction of a Valves record from keyword arguments, as
ValvesModel(**data) behaves: a provided field is validated against its
type, an absent field takes its compiled-in default, an absent field
without a default is an error, and extra keys are ignored. -/
def constructFields : List (String × FieldSpec) → List (String × JVal) →
    Except String (List (String × JVal))
  | [], _ => .ok []
  | f :: rest, body =>
    match jlookup body f.fst with
    | some v =>
      if typeOk f.snd.ty v then
        match constructFields rest body with
        | .ok r => .ok ((f.fst, v) :: r)
        | .error e => .error e
      else .error (f.fst ++ ": value is not valid")
    | none =>
      match f.snd.default with
      | some d =>
        match constructFields rest body with
        | .ok r => .ok ((f.fst, d) :: r)
        | .error e => .error e
      | none => .error (f.fst ++ ": field required")

/-- The in-memory configuration of one plugin together with the persisted
valves.json record for it. -/
structure ValveState where
  valves : List (String × JVal)
  disk : Option (List (String × JVal))

/-- The update endpoint body handler of update_valves (src/main.py lines
398 to 420): the record is constructed from the request body alone via
ValvesModel(**form_data); on success it replaces the in-memory record and
its full dump is written to valves.json; on a validation error the state
is untouched and the error description is surfaced. -/
def update_valves (m : ValvesModel) (st : ValveState) (form_data : List (String × JVal)) :
    ValveState × Except String (List (String × JVal)) :=
  match constructFields m.fields form_data with
  | .error e => (st, .error e)
  | .ok r => (⟨r, some r⟩, .ok r)

/-- Python dict merge of two records with unique keys, as the expression
that combines model_dump output with valves.json content in
_register_pipeline: keys of the base in order with override values taking
precedence, then override keys absent from the base. -/
def mergeRecords (base ov : List (String × JVal)) : List (String × JVal) :=
  base.map (fun kv => (kv.fst, (jlookup ov kv.fst).getD kv.snd))
    ++ ov.filter (fun kv => (jlookup base kv.fst).isNone)

/-- The valves hydration step of _register_pipeline (src/main.py lines 172
to 184): the persisted record is merged over the current (compiled-in
default) record and the Valves class is reconstructed from the merge. -/
def hydrateValves (m : ValvesModel) (defaults valves_json : List (String × JVal)) :
    Except String (List (String × JVal)) :=
  constructFields m.fields (mergeRecords defaults valves_json)

/-- A successful construction produces a record with exactly the declared
field names, in declaration order. -/
theorem constructFields_keys (fields : List (String × FieldSpec))
    (body r : List (String × JVal)) (h : constructFields fields body = .ok r) :
    r.map Prod.fst = fields.map Prod.fst := by
  induction fields generalizing r with
  | nil =>
    simp only [constructFields] at h
    cases h
    simp
  | cons f rest ih =>
    simp only [constructFields] at h
    split at h
    · split at h
      · split at h
        · cases h
          simp [ih _ (by assumption)]
        · cases h
      · cases h
    · split at h
      · split at h
        · cases h
          simp [ih _ (by assumption)]
        · cases h
      · cases h


/-- Lookup in a successfully constructed record: a field present in the
body takes the body value and an absent field takes its compiled-in
default. -/
theorem constructFields_lookup (body : List (String × JVal)) :
    ∀ (fields : List (String × FieldSpec)) (r : List (String × JVal)),
      (fields.map Prod.fst).Nodup → constructFields fields body = .ok r →
      ∀ name spec, (name, spec) ∈ fields →
        jlookup r name = (match jlookup body name with
                          | some v => some v
                          | none => spec.default) := by
  intro fields
  induction fields with
  | nil => intro r _ _ name spec hmem; cases hmem
  | cons f rest ih =>
    intro r hnd h name spec hmem
    obtain ⟨k, sp⟩ := f
    have hnd' : (k :: rest.map Prod.fst).Nodup := by simpa using hnd
    have hk : k ∉ rest.map Prod.fst := (List.nodup_cons.mp hnd').1
    have hnd2 : (rest.map Prod.fst).Nodup := (List.nodup_cons.mp hnd').2
    simp only [constructFields] at h
    split at h
    · rename_i v hb
      split at h
      · rename_i ht
        split at h
        · rename_i rr hr
          cases h
          rcases List.mem_cons.mp hmem with heq | hmem2
          · injection heq with h1 h2
            subst h1
            subst h2
            simp [jlookup, hb]
          · have hne : name ≠ k := fun hc =>
              hk (hc ▸ List.mem_map.mpr ⟨(name, spec), hmem2, rfl⟩)
            simpa [jlookup, Ne.symm hne] using ih rr hnd2 hr name spec hmem2
        · cases h
      · cases h
    · rename_i hb
      split at h
      · rename_i d hd
        split at h
        · rename_i rr hr
          cases h
          rcases List.mem_cons.mp hmem with heq | hmem2
          · injection heq with h1 h2
            subst h1
            subst h2
            simp [jlookup, hb, hd]
          · have hne : name ≠ k := fun hc =>
              hk (hc ▸ List.mem_map.mpr ⟨(name, spec), hmem2, rfl⟩)
            simpa [jlookup, Ne.symm hne] using ih rr hnd2 hr name spec hmem2
        · cases h
      · cases h

/-- C3 counterexample: with compiled-in defaults a=1, b=2 and current
configuration a=5, b=2, a valid partial update setting only b=9 resets a
to its default 1 instead of keeping the current value 5: absent fields do
not keep the current configuration values. -/
theorem C3_counterexample :
    (update_valves ⟨[("a", ⟨FieldTy.tInt, some (JVal.jnum 1)⟩), ("b", ⟨FieldTy.tInt, some (JVal.jnum 2)⟩)]⟩
        ⟨[("a", JVal.jnum 5), ("b", JVal.jnum 2)], some [("a", JVal.jnum 5), ("b", JVal.jnum 2)]⟩
        [("b", JVal.jnum 9)]).fst.valves
      = [("a", JVal.jnum 1), ("b", JVal.jnum 9)]
    ∧ jlookup (update_valves ⟨[("a", ⟨FieldTy.tInt, some (JVal.jnum 1)⟩), ("b", ⟨FieldTy.tInt, some (JVal.jnum 2)⟩)]⟩
        ⟨[("a", JVal.jnum 5), ("b", JVal.jnum 2)], some [("a", JVal.jnum 5), ("b", JVal.jnum 2)]⟩
        [("b", JVal.jnum 9)]).fst.valves "a"
      ≠ some (JVal.jnum 5) := by
  refine ⟨rfl, fun h => ?_⟩
  exact absurd (JVal.jnum.inj (Option.some.inj h)) (by decide)

/-- C3 amended: a valve-update request whose body passes validation
replaces the configuration with the record constructed from the body over
the compiled-in defaults: fields present in the body take their new
values and fields absent from the body take the schema defaults, not the
current values; the full merged record is persisted. -/
theorem C3_amended_update_takes_body_over_defaults (m : ValvesModel) (st : ValveState)
    (body r : List (String × JVal))
    (hnd : (m.fields.map Prod.fst).Nodup)
    (hok : constructFields m.fields body = .ok r) :
    (update_valves m st body).fst.valves = r
    ∧ (update_valves m st body).fst.disk = some r
    ∧ (update_valves m st body).snd = .ok r
    ∧ ∀ name spec, (name, spec) ∈ m.fields →
        jlookup r name = (match jlookup body name with
                          | some v => some v
                          | none => spec.default) := by
  refine ⟨?_, ?_, ?_, constructFields_lookup body m.fields r hnd hok⟩ <;>
    simp [update_valves, hok]

/-- C3 amended witness: concrete two-field update where the provided field
takes the body value and the absent field takes its compiled-in default. -/
theorem C3_amended_update_witness :
    (update_valves ⟨[("a", ⟨FieldTy.tInt, some (JVal.jnum 1)⟩), ("b", ⟨FieldTy.tInt, some (JVal.jnum 2)⟩)]⟩
        ⟨[("a", JVal.jnum 5), ("b", JVal.jnum 2)], none⟩
        [("b", JVal.jnum 9)]).fst.valves = [("a", JVal.jnum 1), ("b", JVal.jnum 9)]
    ∧ (update_valves ⟨[("a", ⟨FieldTy.tInt, some (JVal.jnum 1)⟩), ("b", ⟨FieldTy.tInt, some (JVal.jnum 2)⟩)]⟩
        ⟨[("a", JVal.jnum 5), ("b", JVal.jnum 2)], none⟩
        [("b", JVal.jnum 9)]).fst.disk = some [("a", JVal.jnum 1), ("b", JVal.jnum 9)]
    ∧ (update_valves ⟨[("a", ⟨FieldTy.tInt, some (JVal.jnum 1)⟩), ("b", ⟨FieldTy.tInt, some (JVal.jnum 2)⟩)]⟩
        ⟨[("a", JVal.jnum 5), ("b", JVal.jnum 2)], none⟩
        [("b", JVal.jnum 9)]).snd = .ok [("a", JVal.jnum 1), ("b", JVal.jnum 9)]
    ∧ ∀ name spec, (name, spec) ∈ ([("a", ⟨FieldTy.tInt, some (JVal.jnum 1)⟩), ("b", ⟨FieldTy.tInt, some (JVal.jnum 2)⟩)] : List (String × FieldSpec)) →
        jlookup [("a", JVal.jnum 1), ("b", JVal.jnum 9)] name
          = (match jlookup [("b", JVal.jnum 9)] name with
             | some v => some v
             | none => spec.default) :=
  C3_amended_update_takes_body_over_defaults
    ⟨[("a", ⟨FieldTy.tInt, some (JVal.jnum 1)⟩), ("b", ⟨FieldTy.tInt, some (JVal.jnum 2)⟩)]⟩
    ⟨[("a", JVal.jnum 5), ("b", JVal.jnum 2)], none⟩
    [("b", JVal.jnum 9)] [("a", JVal.jnum 1), ("b", JVal.jnum 9)]
    (by decide) rfl

/-- C4: a valve-update whose body fails schema validation leaves the
in-memory configuration and the persisted file unchanged, and the caller
receives the validation failure description. -/
theorem C4_validation_failure_leaves_state_unchanged (m : ValvesModel) (st : ValveState)
    (body : List (String × JVal)) (e : String)
    (h : constructFields m.fields body = .error e) :
    update_valves m st body = (st, .error e) := by
  simp [update_valves, h]

/-- C4 witness: a concrete ill-typed update is rejected with the state
untouched and the error surfaced. -/
theorem C4_validation_failure_witness :
    update_valves ⟨[("a", ⟨FieldTy.tInt, none⟩)]⟩
        ⟨[("a", JVal.jnum 7)], some [("a", JVal.jnum 7)]⟩
        [("a", JVal.jstr "x")]
      = (⟨[("a", JVal.jnum 7)], some [("a", JVal.jnum 7)]⟩, .error ("a" ++ ": value is not valid")) :=
  C4_validation_failure_leaves_state_unchanged ⟨[("a", ⟨FieldTy.tInt, none⟩)]⟩
    ⟨[("a", JVal.jnum 7)], some [("a", JVal.jnum 7)]⟩
    [("a", JVal.jstr "x")] ("a" ++ ": value is not valid") rfl

/-- A key that appears among the keys of a record has a lookup result. -/
theorem jlookup_isSome_of_mem (l : List (String × JVal)) (k : String)
    (h : k ∈ l.map Prod.fst) : (jlookup l k).isSome = true := by
  induction l with
  | nil => simp at h
  | cons f fs ih =>
    by_cases hf : f.fst = k
    · simp [jlookup, hf]
    · have h2 : k = f.fst ∨ k ∈ fs.map Prod.fst := by
        rw [List.map_cons] at h
        exact List.mem_cons.mp h
      rcases h2 with hc | hc
      · exact absurd hc.symm hf
      · simp [jlookup, hf, ih hc]

/-- Looking up a key other than the head key skips the head. -/
theorem jlookup_cons_ne (f : String × JVal) (fs : List (String × JVal)) (k : String)
    (h : f.fst ≠ k) : jlookup (f :: fs) k = jlookup fs k := by
  simp [jlookup, h]

/-- Rebuilding a record by key lookup against a record with the same
distinct keys returns that record. -/
theorem map_lookup_getD :
    ∀ (base r : List (String × JVal)),
      base.map Prod.fst = r.map Prod.fst → (r.map Prod.fst).Nodup →
      base.map (fun kv => (kv.fst, (jlookup r kv.fst).getD kv.snd)) = r
  | [], [], _, _ => rfl
  | [], y :: ys, hkeys, _ => by simp at hkeys
  | x :: xs, [], hkeys, _ => by simp at hkeys
  | (k, d) :: xs, (k2, v) :: ys, hkeys, hnd => by
    simp only [List.map_cons, List.cons.injEq] at hkeys
    obtain ⟨hk, htail⟩ := hkeys
    subst hk
    have hnd' : (k :: ys.map Prod.fst).Nodup := by simpa using hnd
    have hky : k ∉ ys.map Prod.fst := (List.nodup_cons.mp hnd').1
    have hnd2 : (ys.map Prod.fst).Nodup := (List.nodup_cons.mp hnd').2
    simp only [List.map_cons]
    refine congrArg₂ List.cons (by simp [jlookup]) ?_
    have hmaps : xs.map (fun kv => (kv.fst, (jlookup ((k, v) :: ys) kv.fst).getD kv.snd))
        = xs.map (fun kv => (kv.fst, (jlookup ys kv.fst).getD kv.snd)) := by
      refine List.map_congr_left fun kv hkv => ?_
      have hmem : kv.fst ∈ ys.map Prod.fst := htail ▸ List.mem_map.mpr ⟨kv, hkv, rfl⟩
      have hne : k ≠ kv.fst := fun hc => hky (hc ▸ hmem)
      rw [jlookup_cons_ne _ _ _ hne]
    rw [hmaps]
    exact map_lookup_getD xs ys htail hnd2

/-- Merging a full record with the same distinct keys over a base record
returns that record unchanged. -/
theorem mergeRecords_self (base r : List (String × JVal))
    (hkeys : base.map Prod.fst = r.map Prod.fst) (hnd : (r.map Prod.fst).Nodup) :
    mergeRecords base r = r := by
  have h2 : r.filter (fun kv => (jlookup base kv.fst).isNone) = [] := by
    rw [List.filter_eq_nil_iff]
    intro kv hkv
    have hmem : kv.fst ∈ base.map Prod.fst :=
      hkeys ▸ List.mem_map.mpr ⟨kv, hkv, rfl⟩
    have hs := jlookup_isSome_of_mem base kv.fst hmem
    cases ho : jlookup base kv.fst
    · rw [ho] at hs; cases hs
    · simp [ho]
  unfold mergeRecords
  rw [h2, List.append_nil]
  exact map_lookup_getD base r hkeys hnd

/-- Construction only depends on the body through lookups of the declared
field names. -/
theorem constructFields_congr :
    ∀ (fields : List (String × FieldSpec)) (b1 b2 : List (String × JVal)),
      (∀ name ∈ fields.map Prod.fst, jlookup b1 name = jlookup b2 name) →
      constructFields fields b1 = constructFields fields b2
  | [], _, _, _ => rfl
  | (k, sp) :: rest, b1, b2, h => by
    have hrec : constructFields rest b1 = constructFields rest b2 :=
      constructFields_congr rest b1 b2 fun name hn => h name (by simp [hn])
    have hk : jlookup b1 k = jlookup b2 k := h k (by simp)
    simp only [constructFields, hk, hrec]

/-- Reconstructing an already constructed record succeeds and returns it
unchanged, provided the declared defaults are themselves well typed. -/
theorem constructFields_idem :
    ∀ (fields : List (String × FieldSpec)) (body r : List (String × JVal)),
      (fields.map Prod.fst).Nodup →
      (∀ f ∈ fields, ∀ d, f.snd.default = some d → typeOk f.snd.ty d = true) →
      constructFields fields body = .ok r →
      constructFields fields r = .ok r
  | [], body, r, _, _, h => by
    simp only [constructFields] at h
    cases h
    rfl
  | (k, sp) :: rest, body, r, hnd, hdok, h => by
    have hnd' : (k :: rest.map Prod.fst).Nodup := by simpa using hnd
    have hk : k ∉ rest.map Prod.fst := (List.nodup_cons.mp hnd').1
    have hnd2 : (rest.map Prod.fst).Nodup := (List.nodup_cons.mp hnd').2
    have hdok2 : ∀ f ∈ rest, ∀ d, f.snd.default = some d → typeOk f.snd.ty d = true :=
      fun f hf => hdok f (List.mem_cons_of_mem _ hf)
    simp only [constructFields] at h
    split at h
    · rename_i v hb
      split at h
      · rename_i ht
        split at h
        · rename_i rr hr
          cases h
          have hrec : constructFields rest rr = .ok rr :=
            constructFields_idem rest body rr hnd2 hdok2 hr
          have hcongr : constructFields rest ((k, v) :: rr) = constructFields rest rr :=
            constructFields_congr rest _ _ fun name hn =>
              jlookup_cons_ne (k, v) rr name (fun hc => hk (by
                have hkn : k = name := hc
                rw [hkn]
                exact hn))
          simp [constructFields, jlookup, ht, hcongr, hrec]
        · cases h
      · cases h
    · rename_i hb
      split at h
      · rename_i d hd
        split at h
        · rename_i rr hr
          cases h
          have htd : typeOk sp.ty d = true := hdok (k, sp) (by simp) d hd
          have hrec : constructFields rest rr = .ok rr :=
            constructFields_idem rest body rr hnd2 hdok2 hr
          have hcongr : constructFields rest ((k, d) :: rr) = constructFields rest rr :=
            constructFields_congr rest _ _ fun name hn =>
              jlookup_cons_ne (k, d) rr name (fun hc => hk (by
                have hkn : k = name := hc
                rw [hkn]
                exact hn))
          simp [constructFields, jlookup, htd, hcongr, hrec]
        · cases h
      · cases h

/-- C7: a validated update record, persisted in full by update_valves, is
recovered exactly by hydrating a freshly constructed handle: the merge of
the persisted record over the compiled-in defaults equals the persisted
record field for field, and reconstruction of the Valves class from the
merge succeeds with that very record. -/
theorem C7_persist_then_hydrate_roundtrip (m : ValvesModel) (st : ValveState)
    (defaults body r : List (String × JVal))
    (hnd : (m.fields.map Prod.fst).Nodup)
    (hdok : ∀ f ∈ m.fields, ∀ d, f.snd.default = some d → typeOk f.snd.ty d = true)
    (hdef : constructFields m.fields [] = .ok defaults)
    (hok : constructFields m.fields body = .ok r) :
    (update_valves m st body).fst.disk = some r
    ∧ mergeRecords defaults r = r
    ∧ hydrateValves m defaults r = .ok r := by
  have hkeysd : defaults.map Prod.fst = m.fields.map Prod.fst :=
    constructFields_keys m.fields [] defaults hdef
  have hkeysr : r.map Prod.fst = m.fields.map Prod.fst :=
    constructFields_keys m.fields body r hok
  have hmerge : mergeRecords defaults r = r :=
    mergeRecords_self defaults r (hkeysd.trans hkeysr.symm) (hkeysr ▸ hnd)
  refine ⟨by simp [update_valves, hok], hmerge, ?_⟩
  unfold hydrateValves
  rw [hmerge]
  exact constructFields_idem m.fields body r hnd hdok hok

/-- C7 witness: round trip at a concrete two-field model with a partial
update body. -/
theorem C7_persist_then_hydrate_witness :
    (update_valves ⟨[("a", ⟨FieldTy.tInt, some (JVal.jnum 1)⟩), ("b", ⟨FieldTy.tInt, some (JVal.jnum 2)⟩)]⟩
        ⟨[("a", JVal.jnum 1), ("b", JVal.jnum 2)], none⟩
        [("b", JVal.jnum 9)]).fst.disk = some [("a", JVal.jnum 1), ("b", JVal.jnum 9)]
    ∧ mergeRecords [("a", JVal.jnum 1), ("b", JVal.jnum 2)] [("a", JVal.jnum 1), ("b", JVal.jnum 9)]
        = [("a", JVal.jnum 1), ("b", JVal.jnum 9)]
    ∧ hydrateValves ⟨[("a", ⟨FieldTy.tInt, some (JVal.jnum 1)⟩), ("b", ⟨FieldTy.tInt, some (JVal.jnum 2)⟩)]⟩
        [("a", JVal.jnum 1), ("b", JVal.jnum 2)] [("a", JVal.jnum 1), ("b", JVal.jnum 9)]
        = .ok [("a", JVal.jnum 1), ("b", JVal.jnum 9)] :=
  C7_persist_then_hydrate_roundtrip
    ⟨[("a", ⟨FieldTy.tInt, some (JVal.jnum 1)⟩), ("b", ⟨FieldTy.tInt, some (JVal.jnum 2)⟩)]⟩
    ⟨[("a", JVal.jnum 1), ("b", JVal.jnum 2)], none⟩
    [("a", JVal.jnum 1), ("b", JVal.jnum 2)]
    [("b", JVal.jnum 9)]
    [("a", JVal.jnum 1), ("b", JVal.jnum 9)]
    (by decide)
    (by
      intro f hf d hd
      rcases List.mem_cons.mp hf with heq | hf2
      · subst heq; cases Option.some.inj hd; rfl
      · rcases List.mem_cons.mp hf2 with heq | hf3
        · subst heq; cases Option.some.inj hd; rfl
        · cases hf3)
    rfl rfl

/-- A runtime plugin handle as _register_pipeline sees it: an optionally
declared identifier and, when the instance has a valves attribute, its
Valves class together with the current (compiled-in default) record. -/
structure Pipeline where
  declaredId : Option String
  valves : Option (ValvesModel × List (String × JVal))

/-- Result of attempting to load and instantiate one candidate unit.
load_module_from_path and load_package_from_directory catch every
exception (missing Pipeline class included), log it, and return None, so
a failure carries only its message. -/
inductive LoadOutcome where
  | ok : Pipeline → LoadOutcome
  | err : String → LoadOutcome

/-- One candidate unit of the plugin directory: its module name and the
outcome of loading it. -/
structure SourceUnit where
  name : String
  outcome : LoadOutcome

/-- Python dict assignment on an association list: replace the binding in
place if the key is present, append it otherwise. -/
def assocSet {α : Type} : List (String × α) → String → α → List (String × α)
  | [], k, v => [(k, v)]
  | f :: rest, k, v => if f.fst = k then (k, v) :: rest else f :: assocSet rest k v

/-- The global registries PIPELINE_MODULES and PIPELINE_NAMES. -/
structure Registry where
  modules : List (String × Pipeline)
  names : List (String × String)

/-- Outcome of ensuring and reading the valves.json override file for one
module inside _register_pipeline: the parsed record, or an uncaught I/O
or JSON parse exception raised while creating, opening or reading it. -/
inductive ReadResult where
  | ok : List (String × JVal) → ReadResult
  | ioError : String → ReadResult

/-- The registration step _register_pipeline (src/main.py lines 157 to
189): the valves.json read outcome is given by the environment; there is
no try/except here, so an I/O error or a validation error while
reconstructing the Valves class from the merged record propagates to the
caller as an error; on success the hydrated pipeline is stored in the
registries under its declared or fallback identifier. -/
def _register_pipeline (p : Pipeline) (moduleName : String) (readRes : ReadResult)
    (reg : Registry) : Except String Registry :=
  match readRes with
  | .ioError e => .error e
  | .ok valves_json =>
    match p.valves with
    | none =>
      .ok ⟨assocSet reg.modules (p.declaredId.getD moduleName) p,
           assocSet reg.names (p.declaredId.getD moduleName) moduleName⟩
    | some (vm, cur) =>
      match constructFields vm.fields (mergeRecords cur valves_json) with
      | .error e => .error e
      | .ok newRec =>
        let p2 : Pipeline := ⟨p.declaredId, some (vm, newRec)⟩
        .ok ⟨assocSet reg.modules (p2.declaredId.getD moduleName) p2,
             assocSet reg.names (p2.declaredId.getD moduleName) moduleName⟩

/-- The registration loop of load_modules_from_directory (src/main.py
lines 192 to 228): a unit whose load failed is logged and skipped and the
loop continues; a unit that loaded is registered, and an exception out of
_register_pipeline (which the loop does not catch) aborts the whole load.
Both the single-file pass and the package pass share this per-unit
structure; the environment maps each module name to its valves.json read
outcome. -/
def load_units (env : String → ReadResult) : List SourceUnit → Registry → Except String Registry
  | [], reg => .ok reg
  | ⟨_, .err _⟩ :: rest, reg => load_units env rest reg
  | ⟨uname, .ok p⟩ :: rest, reg =>
    match _register_pipeline p uname (env uname) reg with
    | .error e => .error e
    | .ok reg2 => load_units env rest reg2

/-- C5: a unit that lacks the Pipeline entry type or raises during
instantiation is excluded and independent: removing it from the directory
listing does not change the load result, and loading it alone registers
nothing. -/
theorem C5_broken_unit_excluded_and_independent (env : String → ReadResult)
    (us1 us2 : List SourceUnit) (bad : SourceUnit) (msg : String) (reg : Registry)
    (h : bad.outcome = .err msg) :
    load_units env (us1 ++ bad :: us2) reg = load_units env (us1 ++ us2) reg
    ∧ load_units env [bad] reg = .ok reg := by
  obtain ⟨bname, bout⟩ := bad
  have h2 : bout = LoadOutcome.err msg := h
  subst h2
  constructor
  · induction us1 generalizing reg with
    | nil => simp [load_units]
    | cons u us ih =>
      obtain ⟨uname, uout⟩ := u
      cases uout with
      | err m2 =>
        simp only [List.cons_append, load_units]
        exact ih reg
      | ok p =>
        simp only [List.cons_append, load_units]
        cases hr : _register_pipeline p uname (env uname) reg with
        | error e => rfl
        | ok reg2 => exact ih reg2
  · simp [load_units]

/-- C5 witness: one broken unit between two healthy ones changes nothing
for them and registers nothing by itself. -/
theorem C5_broken_unit_witness :
    load_units (fun _ => ReadResult.ok [])
        ([⟨"u1", .ok ⟨none, none⟩⟩] ++ ⟨"bad", .err "boom"⟩ :: [⟨"u3", .ok ⟨none, none⟩⟩])
        ⟨[], []⟩
      = load_units (fun _ => ReadResult.ok []) ([⟨"u1", .ok ⟨none, none⟩⟩] ++ [⟨"u3", .ok ⟨none, none⟩⟩]) ⟨[], []⟩
    ∧ load_units (fun _ => ReadResult.ok []) [⟨"bad", .err "boom"⟩] ⟨[], []⟩ = .ok ⟨[], []⟩ :=
  C5_broken_unit_excluded_and_independent (fun _ => ReadResult.ok [])
    [⟨"u1", .ok ⟨none, none⟩⟩] [⟨"u3", .ok ⟨none, none⟩⟩] ⟨"bad", .err "boom"⟩ "boom" ⟨[], []⟩ rfl

/-- The valves.json read environment used by the C6 counterexample: the
read for module u2 raises an I/O error, every other read succeeds with an
empty override record. -/
def envWithIoErrorAtU2 : String → ReadResult :=
  fun n => if n = "u2" then .ioError "io failure" else .ok []

/-- C6 counterexample: with three healthy units where the valves.json
read for the second raises an I/O error, the load aborts with that error:
the second plugin does not keep its defaults and the third unit is never
registered, so hydration I/O errors are fatal to the whole load. -/
theorem C6_counterexample :
    load_units envWithIoErrorAtU2
        [⟨"u1", .ok ⟨none, none⟩⟩, ⟨"u2", .ok ⟨none, none⟩⟩, ⟨"u3", .ok ⟨none, none⟩⟩]
        ⟨[], []⟩
      = .error "io failure" := rfl

/-- C6 amended: an I/O error while reading or creating a plugin's valves
override file propagates out of the loader: once the failing unit is
reached, the whole directory load returns that error and no later unit is
processed. -/
theorem C6_amended_hydrate_io_error_aborts_load (env : String → ReadResult)
    (us1 us2 : List SourceUnit) (u : SourceUnit) (p : Pipeline) (e : String)
    (reg reg1 : Registry)
    (hu : u.outcome = .ok p) (hio : env u.name = .ioError e)
    (hpre : load_units env us1 reg = .ok reg1) :
    load_units env (us1 ++ u :: us2) reg = .error e := by
  obtain ⟨uname, uout⟩ := u
  have h2 : uout = LoadOutcome.ok p := hu
  have h3 : env uname = ReadResult.ioError e := hio
  subst h2
  induction us1 generalizing reg with
  | nil => simp [load_units, h3, _register_pipeline]
  | cons v vs ih =>
    obtain ⟨vname, vout⟩ := v
    cases vout with
    | err m2 =>
      simp only [load_units] at hpre
      simp only [List.cons_append, load_units]
      exact ih reg hpre
    | ok p2 =>
      simp only [load_units] at hpre
      simp only [List.cons_append, load_units]
      split at hpre
      · cases hpre
      · rename_i reg2 hr
        exact ih reg2 hpre

/-- C6 amended witness: the abort at the concrete three-unit directory of
the counterexample, after the first unit loaded successfully. -/
theorem C6_amended_abort_witness :
    load_units envWithIoErrorAtU2
        ([⟨"u1", .ok ⟨none, none⟩⟩] ++ ⟨"u2", .ok ⟨none, none⟩⟩ :: [⟨"u3", .ok ⟨none, none⟩⟩])
        ⟨[], []⟩
      = .error "io failure" :=
  C6_amended_hydrate_io_error_aborts_load envWithIoErrorAtU2
    [⟨"u1", .ok ⟨none, none⟩⟩] [⟨"u3", .ok ⟨none, none⟩⟩]
    ⟨"u2", .ok ⟨none, none⟩⟩ ⟨none, none⟩ "io failure"
    ⟨[], []⟩ ⟨[("u1", ⟨none, none⟩)], [("u1", "u1")]⟩
    rfl rfl rfl

/-- One directory entry of the pipelines directory: its name, whether it
is a directory, and (for directories) the contained file names with their
contents. -/
structure DirEntry where
  name : String
  isDir : Bool
  files : List (String × String)

/-- The on-disk state the migration manipulates: the entries of
PIPELINES_DIR and the subdirectories of VALVES_DIR with their files. -/
structure FS where
  pipelinesDir : List DirEntry
  valvesDir : List (String × List (String × String))

/-- Lookup of a file by name inside a directory. -/
def fileLookup : List (String × String) → String → Option String
  | [], _ => none
  | f :: fs, n => if f.fst = n then some f.snd else fileLookup fs n

/-- Removal of a file by name, as os.remove or shutil.move leaves the
source directory. -/
def removeFile : List (String × String) → String → List (String × String)
  | [], _ => []
  | f :: fs, n => if f.fst = n then removeFile fs n else f :: removeFile fs n

/-- First entry with the given name. -/
def findEntry : List DirEntry → String → Option DirEntry
  | [], _ => none
  | e :: es, n => if e.name = n then some e else findEntry es n

/-- Replacement of every entry with the given name by a new state. -/
def replaceEntry : List DirEntry → String → DirEntry → List DirEntry
  | [], _, _ => []
  | e :: es, n, e2 => if e.name = n then e2 :: replaceEntry es n e2 else e :: replaceEntry es n e2

/-- Removal of every entry with the given name, as shutil.rmtree. -/
def removeEntry : List DirEntry → String → List DirEntry
  | [], _ => []
  | e :: es, n => if e.name = n then removeEntry es n else e :: removeEntry es n

/-- Lookup of a VALVES_DIR subdirectory by name. -/
def vdLookup : List (String × List (String × String)) → String → Option (List (String × String))
  | [], _ => none
  | d :: ds, n => if d.fst = n then some d.snd else vdLookup ds n

/-- Update or creation of a VALVES_DIR subdirectory, as os.makedirs with
exist_ok followed by writing into it. -/
def vdSet : List (String × List (String × String)) → String → List (String × String) →
    List (String × List (String × String))
  | [], n, files => [(n, files)]
  | d :: ds, n, files => if d.fst = n then (n, files) :: ds else d :: vdSet ds n files

/-- The files of a directory other than the __pycache__ entry: the
remaining list the migration tests before removing a legacy directory. -/
def nonPycache : List (String × String) → List (String × String)
  | [] => []
  | f :: fs => if f.fst = "__pycache__" then nonPycache fs else f :: nonPycache fs

/-- The VALVES_DIR subdirectory contents after one migration of a legacy
valves.json: if the new location already holds a valves.json the legacy
copy is just dropped, otherwise the legacy file is moved in. -/
def newValvesFiles (fs : FS) (entry content : String) : List (String × String) :=
  match vdLookup fs.valvesDir entry with
  | some sub =>
    match fileLookup sub "valves.json" with
    | some _ => sub
    | none => sub ++ [("valves.json", content)]
  | none => [("valves.json", content)]

/-- One iteration of the loop of _migrate_valves_to_new_dir (src/main.py
lines 41 to 71) for a single listed name: skip non-directories, dot names
and the failed directory; skip when no legacy valves.json exists; move
the legacy file into VALVES_DIR when the new location lacks it, else just
delete the legacy copy; keep a package directory; remove a single-file
legacy directory that has nothing left but __pycache__. -/
def migrateStep (fs : FS) (entry : String) : FS :=
  match findEntry fs.pipelinesDir entry with
  | none => fs
  | some e =>
    if e.isDir = false ∨ entry.startsWith "." = true ∨ entry = "failed" then fs
    else
      match fileLookup e.files "valves.json" with
      | none => fs
      | some content =>
        if (fileLookup (removeFile e.files "valves.json") "__init__.py").isSome = true then
          ⟨replaceEntry fs.pipelinesDir entry ⟨e.name, e.isDir, removeFile e.files "valves.json"⟩,
           vdSet fs.valvesDir entry (newValvesFiles fs entry content)⟩
        else if nonPycache (removeFile e.files "valves.json") = [] then
          ⟨removeEntry fs.pipelinesDir entry,
           vdSet fs.valvesDir entry (newValvesFiles fs entry content)⟩
        else
          ⟨replaceEntry fs.pipelinesDir entry ⟨e.name, e.isDir, removeFile e.files "valves.json"⟩,
           vdSet fs.valvesDir entry (newValvesFiles fs entry content)⟩

/-- The migration _migrate_valves_to_new_dir: one pass of migrateStep
over the names listed in the pipelines directory at the start of the
run. -/
def _migrate_valves_to_new_dir (fs : FS) : FS :=
  (fs.pipelinesDir.map DirEntry.name).foldl migrateStep fs

/-- An entry is clean when, if the migration would consider it (a
directory, not a dot name, not the failed directory), it holds no legacy
valves.json. -/
def cleanEntry (e : DirEntry) : Prop :=
  e.isDir = true → e.name.startsWith "." = false → e.name ≠ "failed" →
    fileLookup e.files "valves.json" = none

/-- A filesystem with no legacy valves.json left anywhere the migration
looks. -/
def noLegacy (fs : FS) : Prop := ∀ e ∈ fs.pipelinesDir, cleanEntry e

/-- After removing a file name, looking it up fails. -/
theorem fileLookup_removeFile (files : List (String × String)) (n : String) :
    fileLookup (removeFile files n) n = none := by
  induction files with
  | nil => rfl
  | cons f fs ih =>
    by_cases hf : f.fst = n
    · simp [removeFile, hf, ih]
    · simp [removeFile, fileLookup, hf, ih]

/-- A found entry belongs to the list and carries the searched name. -/
theorem findEntry_mem (es : List DirEntry) (n : String) (e : DirEntry)
    (h : findEntry es n = some e) : e ∈ es ∧ e.name = n := by
  induction es with
  | nil => cases h
  | cons e0 es ih =>
    by_cases h0 : e0.name = n
    · simp only [findEntry, if_pos h0] at h
      cases h
      exact ⟨List.mem_cons_self _ _, h0⟩
    · simp only [findEntry, if_neg h0] at h
      obtain ⟨hmem, hname⟩ := ih h
      exact ⟨List.mem_cons_of_mem _ hmem, hname⟩

/-- Finding a name after replacing it finds the replacement. -/
theorem findEntry_replaceEntry_self (es : List DirEntry) (n : String) (e e2 : DirEntry)
    (hf : findEntry es n = some e) (h2 : e2.name = n) :
    findEntry (replaceEntry es n e2) n = some e2 := by
  induction es with
  | nil => cases hf
  | cons e0 es ih =>
    by_cases h0 : e0.name = n
    · simp [replaceEntry, findEntry, h0, h2]
    · simp only [findEntry, if_neg h0] at hf
      simp [replaceEntry, findEntry, h0, ih hf]

/-- Finding a name after removing it fails. -/
theorem findEntry_removeEntry_self (es : List DirEntry) (n : String) :
    findEntry (removeEntry es n) n = none := by
  induction es with
  | nil => rfl
  | cons e0 es ih =>
    by_cases h0 : e0.name = n
    · simp [removeEntry, h0, ih]
    · simp [removeEntry, findEntry, h0, ih]

/-- Replacing one name leaves lookups of other names unchanged. -/
theorem findEntry_replaceEntry_ne (es : List DirEntry) (n : String) (e2 : DirEntry)
    (m : String) (hm : m ≠ n) (h2 : e2.name = n) :
    findEntry (replaceEntry es n e2) m = findEntry es m := by
  induction es with
  | nil => rfl
  | cons e0 es ih =>
    by_cases h0 : e0.name = n
    · have : e0.name ≠ m := fun hc => hm (hc.symm.trans h0)
      simp [replaceEntry, findEntry, h0, h2, Ne.symm hm, this, ih]
    · simp [replaceEntry, findEntry, h0, ih]

/-- Removing one name leaves lookups of other names unchanged. -/
theorem findEntry_removeEntry_ne (es : List DirEntry) (n m : String) (hm : m ≠ n) :
    findEntry (removeEntry es n) m = findEntry es m := by
  induction es with
  | nil => rfl
  | cons e0 es ih =>
    by_cases h0 : e0.name = n
    · have : e0.name ≠ m := fun hc => hm (hc.symm.trans h0)
      simp [removeEntry, findEntry, h0, Ne.symm hm, this, ih]
    · simp [removeEntry, findEntry, h0, ih]

/-- Membership after replacement: an entry is the replacement or an
original entry. -/
theorem mem_replaceEntry (es : List DirEntry) (n : String) (e2 x : DirEntry)
    (h : x ∈ replaceEntry es n e2) : x = e2 ∨ x ∈ es := by
  induction es with
  | nil => cases h
  | cons e0 es ih =>
    by_cases h0 : e0.name = n
    · simp only [replaceEntry, if_pos h0] at h
      rcases List.mem_cons.mp h with h1 | h1
      · exact Or.inl h1
      · rcases ih h1 with h2 | h2
        · exact Or.inl h2
        · exact Or.inr (List.mem_cons_of_mem _ h2)
    · simp only [replaceEntry, if_neg h0] at h
      rcases List.mem_cons.mp h with h1 | h1
      · exact Or.inr (h1 ▸ List.mem_cons_self _ _)
      · rcases ih h1 with h2 | h2
        · exact Or.inl h2
        · exact Or.inr (List.mem_cons_of_mem _ h2)

/-- Membership after removal implies original membership. -/
theorem mem_removeEntry (es : List DirEntry) (n : String) (x : DirEntry)
    (h : x ∈ removeEntry es n) : x ∈ es := by
  induction es with
  | nil => cases h
  | cons e0 es ih =>
    by_cases h0 : e0.name = n
    · simp only [removeEntry, if_pos h0] at h
      exact List.mem_cons_of_mem _ (ih h)
    · simp only [removeEntry, if_neg h0] at h
      rcases List.mem_cons.mp h with h1 | h1
      · exact h1 ▸ List.mem_cons_self _ _
      · exact List.mem_cons_of_mem _ (ih h1)

/-- Replacing a name by an entry of the same name keeps the name listing
unchanged. -/
theorem map_name_replaceEntry (es : List DirEntry) (n : String) (e2 : DirEntry)
    (h2 : e2.name = n) :
    (replaceEntry es n e2).map DirEntry.name = es.map DirEntry.name := by
  induction es with
  | nil => rfl
  | cons e0 es ih =>
    by_cases h0 : e0.name = n
    · simp [replaceEntry, h0, h2, ih]
    · simp [replaceEntry, h0, ih]

/-- Removal produces a sublist. -/
theorem removeEntry_sublist (es : List DirEntry) (n : String) :
    (removeEntry es n).Sublist es := by
  induction es with
  | nil => simp [removeEntry]
  | cons e0 es ih =>
    by_cases h0 : e0.name = n
    · simp only [removeEntry, if_pos h0]
      exact ih.cons _
    · simp only [removeEntry, if_neg h0]
      exact ih.cons₂ _

/-- On a filesystem with no legacy files left, one migration step is the
identity. -/
theorem migrateStep_eq_of_clean (fs : FS) (n : String) (hno : noLegacy fs) :
    migrateStep fs n = fs := by
  unfold migrateStep
  split
  · rfl
  · rename_i e hf
    split
    · rfl
    · rename_i hC
      obtain ⟨hmem, hname⟩ := findEntry_mem _ _ _ hf
      push_neg at hC
      obtain ⟨h1, h2, h3⟩ := hC
      have hd : e.isDir = true := by
        cases hb : e.isDir
        · exact absurd hb h1
        · rfl
      have hdot : e.name.startsWith "." = false := by
        rw [hname]
        cases hb : n.startsWith "."
        · rfl
        · exact absurd hb h2
      have hfail : e.name ≠ "failed" := by rw [hname]; exact h3
      rw [hno e hmem hd hdot hfail]

/-- A full pass over any listing of a clean filesystem is the identity. -/
theorem foldl_migrateStep_of_clean (fs : FS) (hno : noLegacy fs) :
    ∀ names : List String, names.foldl migrateStep fs = fs := by
  intro names
  induction names with
  | nil => rfl
  | cons n ns ih => rw [List.foldl_cons, migrateStep_eq_of_clean fs n hno, ih]

/-- A migration step for one name leaves lookups of other names in the
pipelines directory unchanged. -/
theorem findEntry_migrateStep_ne (fs : FS) (n m : String) (hm : m ≠ n) :
    findEntry (migrateStep fs n).pipelinesDir m = findEntry fs.pipelinesDir m := by
  unfold migrateStep
  split
  · rfl
  · rename_i e hf
    split
    · rfl
    · split
      · rfl
      · rename_i content hv
        obtain ⟨hmem, hname⟩ := findEntry_mem _ _ _ hf
        split
        · exact findEntry_replaceEntry_ne _ _ _ _ hm hname
        · split
          · exact findEntry_removeEntry_ne _ _ _ hm
          · exact findEntry_replaceEntry_ne _ _ _ _ hm hname

/-- After a migration step for a name, whatever entry that name still
finds is clean. -/
theorem migrateStep_clean_self (fs : FS) (n : String) (e' : DirEntry)
    (h : findEntry (migrateStep fs n).pipelinesDir n = some e') : cleanEntry e' := by
  unfold migrateStep at h
  split at h
  · rename_i hf
    rw [hf] at h
    cases h
  · rename_i e hf
    split at h
    · rename_i hC
      rw [hf] at h
      cases h
      intro hd hdot hfail
      obtain ⟨hmem, hname⟩ := findEntry_mem _ _ _ hf
      rcases hC with h1 | h1 | h1
      · rw [hd] at h1
        cases h1
      · rw [hname] at hdot
        rw [hdot] at h1
        cases h1
      · rw [hname] at hfail
        exact absurd h1 hfail
    · split at h
      · rename_i hv
        rw [hf] at h
        cases h
        intro _ _ _
        exact hv
      · rename_i content hv
        obtain ⟨hmem, hname⟩ := findEntry_mem _ _ _ hf
        split at h
        · rw [findEntry_replaceEntry_self fs.pipelinesDir n e
            ⟨e.name, e.isDir, removeFile e.files "valves.json"⟩ hf hname] at h
          cases h
          intro _ _ _
          exact fileLookup_removeFile e.files _
        · split at h
          · rw [findEntry_removeEntry_self] at h
            cases h
          · rw [findEntry_replaceEntry_self fs.pipelinesDir n e
              ⟨e.name, e.isDir, removeFile e.files "valves.json"⟩ hf hname] at h
            cases h
            intro _ _ _
            exact fileLookup_removeFile e.files _

/-- A migration step either keeps the name listing of the pipelines
directory or shrinks the directory to a sublist. -/
theorem migrateStep_names (fs : FS) (n : String) :
    (migrateStep fs n).pipelinesDir.map DirEntry.name = fs.pipelinesDir.map DirEntry.name
    ∨ (migrateStep fs n).pipelinesDir.Sublist fs.pipelinesDir := by
  unfold migrateStep
  split
  · exact Or.inl rfl
  · rename_i e hf
    split
    · exact Or.inl rfl
    · split
      · exact Or.inl rfl
      · rename_i content hv
        obtain ⟨hmem, hname⟩ := findEntry_mem _ _ _ hf
        split
        · exact Or.inl (map_name_replaceEntry _ _ _ hname)
        · split
          · exact Or.inr (removeEntry_sublist _ _)
          · exact Or.inl (map_name_replaceEntry _ _ _ hname)

/-- A migration step preserves distinctness of entry names. -/
theorem migrateStep_nodup (fs : FS) (n : String)
    (hnd : (fs.pipelinesDir.map DirEntry.name).Nodup) :
    ((migrateStep fs n).pipelinesDir.map DirEntry.name).Nodup := by
  rcases migrateStep_names fs n with h | h
  · rw [h]
    exact hnd
  · exact List.Nodup.sublist (h.map DirEntry.name) hnd

/-- A migration step introduces no new entry names. -/
theorem migrateStep_name_subset (fs : FS) (n : String) :
    ∀ x ∈ (migrateStep fs n).pipelinesDir.map DirEntry.name,
      x ∈ fs.pipelinesDir.map DirEntry.name := by
  rcases migrateStep_names fs n with h | h
  · rw [h]
    exact fun x hx => hx
  · exact fun x hx => (h.map DirEntry.name).subset hx

/-- Names outside the processed listing keep their lookup result across
a whole pass. -/
theorem foldl_findEntry_not_mem (names : List String) :
    ∀ (fs : FS) (m : String), m ∉ names →
      findEntry (names.foldl migrateStep fs).pipelinesDir m = findEntry fs.pipelinesDir m := by
  induction names with
  | nil => intro fs m _; rfl
  | cons n ns ih =>
    intro fs m hm
    rw [List.foldl_cons]
    have hmn : m ≠ n := fun hc => hm (hc ▸ List.mem_cons_self _ _)
    have hmns : m ∉ ns := fun hc => hm (List.mem_cons_of_mem _ hc)
    rw [ih (migrateStep fs n) m hmns, findEntry_migrateStep_ne fs n m hmn]

/-- After a pass over a duplicate-free listing, every processed name that
still finds an entry finds a clean one. -/
theorem foldl_clean (names : List String) :
    ∀ (fs : FS), names.Nodup →
      ∀ m ∈ names, ∀ e', findEntry (names.foldl migrateStep fs).pipelinesDir m = some e' →
        cleanEntry e' := by
  induction names with
  | nil => intro fs _ m hm; cases hm
  | cons n ns ih =>
    intro fs hnd m hm e' h
    rw [List.foldl_cons] at h
    rcases List.mem_cons.mp hm with rfl | hmns
    · have hn : m ∉ ns := (List.nodup_cons.mp hnd).1
      rw [foldl_findEntry_not_mem ns (migrateStep fs m) m hn] at h
      exact migrateStep_clean_self fs m e' h
    · exact ih (migrateStep fs n) (List.nodup_cons.mp hnd).2 m hmns e' h

/-- Under distinct names, a member of the directory is what its own name
finds. -/
theorem findEntry_of_mem_nodup (es : List DirEntry)
    (hnd : (es.map DirEntry.name).Nodup) (e : DirEntry) (he : e ∈ es) :
    findEntry es e.name = some e := by
  induction es with
  | nil => cases he
  | cons e0 es ih =>
    have hnd1 : (e0.name :: es.map DirEntry.name).Nodup := by simpa using hnd
    have hk : e0.name ∉ es.map DirEntry.name := (List.nodup_cons.mp hnd1).1
    have hnd2 : (es.map DirEntry.name).Nodup := (List.nodup_cons.mp hnd1).2
    rcases List.mem_cons.mp he with rfl | he2
    · simp [findEntry]
    · have h0 : e0.name ≠ e.name := fun hc =>
        hk (hc ▸ List.mem_map.mpr ⟨e, he2, rfl⟩)
      simpa [findEntry, h0] using ih hnd2 he2

/-- A whole pass preserves distinctness of entry names. -/
theorem foldl_nodup (names : List String) :
    ∀ fs : FS, (fs.pipelinesDir.map DirEntry.name).Nodup →
      ((names.foldl migrateStep fs).pipelinesDir.map DirEntry.name).Nodup := by
  induction names with
  | nil => intro fs h; exact h
  | cons n ns ih =>
    intro fs h
    rw [List.foldl_cons]
    exact ih _ (migrateStep_nodup fs n h)

/-- A whole pass introduces no new entry names. -/
theorem foldl_name_subset (names : List String) :
    ∀ (fs : FS) (x : String),
      x ∈ (names.foldl migrateStep fs).pipelinesDir.map DirEntry.name →
      x ∈ fs.pipelinesDir.map DirEntry.name := by
  induction names with
  | nil => intro fs x hx; exact hx
  | cons n ns ih =>
    intro fs x hx
    rw [List.foldl_cons] at hx
    exact migrateStep_name_subset fs n x (ih _ x hx)

/-- After one migration run over a directory with distinct entry names,
no legacy valves.json remains anywhere the migration looks. -/
theorem migrate_noLegacy (fs : FS)
    (hnd : (fs.pipelinesDir.map DirEntry.name).Nodup) :
    noLegacy (_migrate_valves_to_new_dir fs) := by
  unfold _migrate_valves_to_new_dir
  intro e he
  have hfinal_nodup :
      (((fs.pipelinesDir.map DirEntry.name).foldl migrateStep fs).pipelinesDir.map DirEntry.name).Nodup :=
    foldl_nodup _ fs hnd
  have hfind := findEntry_of_mem_nodup _ hfinal_nodup e he
  have hmemL : e.name ∈ fs.pipelinesDir.map DirEntry.name :=
    foldl_name_subset _ fs e.name (List.mem_map.mpr ⟨e, he, rfl⟩)
  exact foldl_clean _ fs hnd e.name hmemL e hfind

/-- C8: on any layout whose pipelines directory lists distinct entry
names, running the legacy valves migration twice produces exactly the
layout of running it once. -/
theorem C8_migration_idempotent (fs : FS)
    (hnd : (fs.pipelinesDir.map DirEntry.name).Nodup) :
    _migrate_valves_to_new_dir (_migrate_valves_to_new_dir fs) = _migrate_valves_to_new_dir fs :=
  foldl_migrateStep_of_clean (_migrate_valves_to_new_dir fs) (migrate_noLegacy fs hnd)
    ((_migrate_valves_to_new_dir fs).pipelinesDir.map DirEntry.name)

/-- C8 witness: idempotence at a concrete layout with one legacy
single-file pipeline directory holding a valves.json and a leftover
source file. -/
theorem C8_migration_idempotent_witness :
    _migrate_valves_to_new_dir (_migrate_valves_to_new_dir
      ⟨[⟨"p1", true, [("valves.json", "ov"), ("x.py", "src")]⟩], []⟩)
      = _migrate_valves_to_new_dir
      ⟨[⟨"p1", true, [("valves.json", "ov"), ("x.py", "src")]⟩], []⟩ :=
  C8_migration_idempotent ⟨[⟨"p1", true, [("valves.json", "ov"), ("x.py", "src")]⟩], []⟩
    (by decide)
